import Mathlib

/-! Verification of the `BitVec` module (src/src/vec.rs) of the bitvec
repository. The growable vector `BitVec` of vec.rs is embedded shallowly:
its handle is a `(BitPtr, capacity)` doublet (plus a phantom cursor choice),
and here it is carried together with the contents of its backing allocation
so that operations on memory can be given meaning. The core primitives it
uses (`BitPtr`, `Cursor`, `BitAccess`, `BitIdx::span`) live in source files
that are not part of the provided sources; those are modelled from the spec,
as marked on each definition. -/

/-- Bit-ordering convention (spec 4.2). Modelled from the spec: the `Cursor`
trait and its two implementations (most-significant-first and
least-significant-first) are in cursor.rs, which is not among the provided
sources. -/
inductive CursorKind where
  | bigEndian
  | littleEndian
deriving DecidableEq

/-- Modelled from the spec (4.2): `Cursor::at(idx, W) -> BitPos`. The
most-significant-first cursor maps `idx` to `W - 1 - idx`; the
least-significant-first cursor is the identity. -/
def cursorAt (c : CursorKind) (idx W : Nat) : Nat :=
  match c with
  | .bigEndian => W - 1 - idx
  | .littleEndian => idx

/-- Modelled from the spec (3, 4.5): the packed span descriptor of
pointer.rs, which is not among the provided sources. `ptr` is the base
address counted in element units; the address `0` plays the role of the
null pointer. The packing into two machine words is a representation
concern; the descriptor is modelled by its decoded triple. -/
structure BitPtr where
  ptr : Nat
  head : Nat
  len : Nat
deriving DecidableEq

namespace BitPtr

/-- Modelled from the spec (4.5): `empty()`, the canonical zero-length,
zero-head descriptor whose base is a dangling-but-non-null sentinel. -/
def empty : BitPtr := ⟨1, 0, 0⟩

/-- Modelled from the spec (4.5): `uninhabited(base)`, a zero-length
descriptor anchored at a real base pointer. -/
def uninhabited (p : Nat) : BitPtr := ⟨p, 0, 0⟩

/-- Validity invariant of a descriptor (spec 3): non-null base, `head < W`,
`len` at most the ceiling `M` (`MAX_BITS`), and an empty span is normalized
to head zero. -/
def Valid (W M : Nat) (bp : BitPtr) : Prop :=
  bp.ptr ≠ 0 ∧ bp.head < W ∧ bp.len ≤ M ∧ (bp.len = 0 → bp.head = 0)

instance (W M : Nat) (bp : BitPtr) : Decidable (Valid W M bp) := by
  unfold Valid
  exact inferInstance

/-- Modelled from the spec (4.5): the validated constructor
`new(base, head, len)` fails if the base is null, if `head >= W`, or if
`len` exceeds `MAX_BITS`; a zero-length request normalizes the head to `0`
regardless of the requested head (spec 3 and 8). -/
def new (W M : Nat) (p h l : Nat) : Except String BitPtr :=
  if p = 0 then .error ("null base pointer")
  else if h ≥ W then .error ("head index out of range")
  else if l > M then .error ("length exceeds MAX_BITS")
  else .ok ⟨p, if l = 0 then 0 else h, l⟩

/-- Modelled from the spec (3, 4.5): `set_len(new_len)` rewrites the length
field; an empty span always normalizes `head` back to `0`. -/
def setLen (bp : BitPtr) (l : Nat) : BitPtr :=
  ⟨bp.ptr, if l = 0 then 0 else bp.head, l⟩

/-- Modelled from the spec (4.5): `set_pointer(new_base)` retargets the base
address and must preserve `head` and `len` unchanged. -/
def setPointer (bp : BitPtr) (p : Nat) : BitPtr :=
  ⟨p, bp.head, bp.len⟩

/-- Modelled from the spec (3): the element count spanned,
`elements = ceil((head + len) / W)`. -/
def elements (W : Nat) (bp : BitPtr) : Nat :=
  (bp.head + bp.len + (W - 1)) / W

/-- Modelled from the spec (3): the tail position,
`tail = (head + len) mod W`, or `W` when a non-empty span ends exactly on an
element boundary. -/
def tail (W : Nat) (bp : BitPtr) : Nat :=
  if bp.len = 0 then 0
  else if (bp.head + bp.len) % W = 0 then W
  else (bp.head + bp.len) % W

/-- Modelled from the spec (3, 4.5): `incr_tail()` grows the live length by
exactly one bit; an attempt to grow past `MAX_BITS` must fail rather than
silently wrap, because the encoding cannot represent such a length. -/
def incrTail (M : Nat) (bp : BitPtr) : Except String BitPtr :=
  if bp.len + 1 > M then .error ("capacity overflow")
  else .ok ⟨bp.ptr, bp.head, bp.len + 1⟩

/-- Modelled from the spec (3, 4.5): `decr_tail()` shrinks the live length
by exactly one bit (precondition: the span is non-empty, validated by the
caller); when the span becomes empty its head normalizes back to `0`. -/
def decrTail (bp : BitPtr) : BitPtr :=
  ⟨bp.ptr, if bp.len - 1 = 0 then 0 else bp.head, bp.len - 1⟩

/-- Iterated `incr_tail`, propagating the overflow failure. -/
def incrN (M : Nat) : Nat → BitPtr → Except String BitPtr
  | 0, bp => .ok bp
  | n + 1, bp => (incrTail M bp).bind (incrN M n)

/-- Iterated `decr_tail`. -/
def decrN : Nat → BitPtr → BitPtr
  | 0, bp => bp
  | n + 1, bp => decrN n (decrTail bp)

end BitPtr

/-- Modelled from the spec (4.4): the alias-safe accessor wrapping one
backing element, through which possibly-aliased elements are read. -/
structure BitAccess where
  value : Nat
deriving DecidableEq

/-- Modelled from the spec (4.4): `load()` reads the full element value. -/
def BitAccess.load (a : BitAccess) : Nat := a.value

/-- Modelled from the spec (4.5): `as_access_slice` returns the covered
elements `[0, elements())` wrapped in the alias-safe accessor instead of a
raw mutable view. `mem` is the memory region starting at the descriptor's
base address. -/
def accessSlice (W : Nat) (bp : BitPtr) (mem : List Nat) : List BitAccess :=
  (mem.take (BitPtr.elements W bp)).map BitAccess.mk

/-- Modelled from the spec (vec.rs comment at lines 627-629): the element
count of `BitIdx::span(t, n)`, the number of additional elements needed to
store `n` more bits after bit-position `t`. indices.rs is not among the
provided sources. -/
def spanCount (W t n : Nat) : Nat :=
  (t + n + (W - 1)) / W - (t + (W - 1)) / W

/-- Model of a Rust `Vec<T>` handle as used by vec.rs: base address, live
element length, and the contents of the backing allocation, whose list
length is the allocation capacity in elements. -/
structure VecM where
  ptr : Nat
  len : Nat
  mem : List Nat
deriving DecidableEq

/-- Embeds `Vec::push(x)`: the new element is written into spare capacity
when available, otherwise the allocation grows. The abstract address is kept
stable; only reachability of the allocation matters to the model. -/
def vecPush (x : Nat) (v : VecM) : VecM :=
  if v.len < v.mem.length then ⟨v.ptr, v.len + 1, v.mem.set v.len x⟩
  else ⟨v.ptr, v.len + 1, v.mem ++ [x]⟩

/-- Embeds `Vec::reserve(e)` and `Vec::reserve_exact(e)`: ensures the
capacity is at least `len + e`, filling fresh slots with zero (the model of
logically uninitialized memory). -/
def vecReserve (e : Nat) (v : VecM) : VecM :=
  if v.len + e ≤ v.mem.length then v
  else ⟨v.ptr, v.len, v.mem ++ List.replicate (v.len + e - v.mem.length) 0⟩

/-- Embeds `Vec::shrink_to_fit`: drops the spare capacity. -/
def vecShrink (v : VecM) : VecM := ⟨v.ptr, v.len, v.mem.take v.len⟩

/-- Embeds the owning vector of vec.rs lines 257-266: the handle is exactly
the `(bitptr, capacity)` doublet plus the phantom cursor choice. The `mem`
field carries the contents of the backing allocation the handle points to,
so that operations on memory can be stated; it is the heap region, not
per-instance handle state. -/
structure BitVecM where
  cursor : CursorKind
  bitptr : BitPtr
  capacity : Nat
  mem : List Nat
deriving DecidableEq

namespace BitVecM

/-- Embeds `BitVec::new` (vec.rs 287-293): empty descriptor, capacity 0,
no allocation. -/
def new (c : CursorKind) : BitVecM := ⟨c, BitPtr.empty, 0, []⟩

/-- Embeds `BitVec::from_raw_parts` (vec.rs 560-566): rebuilds the handle
from the `BitPtr` and the capacity alone, taking over the backing memory
those raw parts describe. -/
def fromRawParts (c : CursorKind) (bp : BitPtr) (cap : Nat) (mem : List Nat) :
    BitVecM :=
  ⟨c, bp, cap, mem⟩

/-- The capacity invariant (vec.rs 262-263, spec 6): the stored capacity
field equals the element capacity of the backing allocation, zero when
unallocated. -/
def CapInv (bv : BitVecM) : Prop := bv.capacity = bv.mem.length

instance (bv : BitVecM) : Decidable (CapInv bv) := by
  unfold CapInv
  exact inferInstance

/-- Embeds `BitVec::capacity` (vec.rs 587-591): the capacity in bits is the
element capacity times the element bit width. -/
def capacityBits (W : Nat) (bv : BitVecM) : Nat := bv.capacity * W

/-- Embeds `do_unto_vec` (vec.rs 1623-1638): reconstructs the underlying
`Vec` from the descriptor's pointer, its element count and the stored
capacity, runs `f` on it, then repoints the descriptor at the possibly
relocated allocation with `set_pointer` and stores the new capacity. -/
def doUntoVec (W : Nat) (bv : BitVecM) (f : VecM → VecM) : BitVecM :=
  ⟨bv.cursor,
    bv.bitptr.setPointer (f ⟨bv.bitptr.ptr, BitPtr.elements W bv.bitptr, bv.mem⟩).ptr,
    (f ⟨bv.bitptr.ptr, BitPtr.elements W bv.bitptr, bv.mem⟩).mem.length,
    (f ⟨bv.bitptr.ptr, BitPtr.elements W bv.bitptr, bv.mem⟩).mem⟩

/-- Embeds `BitVec::set_len` (vec.rs 853-867): asserts the new length
against `MAX_BITS` and against the allocated capacity in bits, then
delegates to the descriptor's `set_len`. A failed assertion is a panic,
modelled as an error result: no successor state is produced, so the
previously-valid descriptor is untouched. -/
def setLen (W M : Nat) (bv : BitVecM) (l : Nat) : Except String BitVecM :=
  if l > M then .error ("Capacity overflow: overflows maximum length")
  else if l > capacityBits W bv then
    .error ("Capacity overflow: overflows allocation size")
  else .ok ⟨bv.cursor, bv.bitptr.setLen l, bv.capacity, bv.mem⟩

/-- Embeds `BitVec::clear` (vec.rs 1222-1224): `set_len(0)`. -/
def clear (W M : Nat) (bv : BitVecM) : Except String BitVecM := setLen W M bv 0

/-- Embeds `BitVec::truncate` (vec.rs 726-730): when `l` is below the
current length, the descriptor's `set_len` is called directly; otherwise
nothing happens. -/
def truncate (bv : BitVecM) (l : Nat) : BitVecM :=
  if l < bv.bitptr.len then ⟨bv.cursor, bv.bitptr.setLen l, bv.capacity, bv.mem⟩
  else bv

/-- Embeds `BitVec::reserve` (vec.rs 619-631): asserts the grown length
against `MAX_BITS`, then reserves the needed extra elements through
`do_unto_vec`. -/
def reserve (W M : Nat) (bv : BitVecM) (additional : Nat) :
    Except String BitVecM :=
  if bv.bitptr.len + additional > M then
    .error ("Capacity overflow: exceeds MAX_BITS")
  else .ok (doUntoVec W bv
    (vecReserve (spanCount W (BitPtr.tail W bv.bitptr) additional)))

/-- Embeds `BitVec::shrink_to_fit` (vec.rs 700-702). -/
def shrinkToFit (W : Nat) (bv : BitVecM) : BitVecM := doUntoVec W bv vecShrink

/-- Embeds `BitVec::set_elements` (vec.rs 1402-1409): writes every allocated
element of the backing store, up to the capacity. -/
def setElements (W : Nat) (bv : BitVecM) (elt : Nat) : BitVecM :=
  doUntoVec W bv (fun v => ⟨v.ptr, v.len, List.replicate v.mem.length elt⟩)

/-- Reading the bit at logical index `i` of the vector (`self[i]`), through
the active cursor: the element is `mem[(head + i) / W]` and the physical
position is the cursor image of `(head + i) % W`. -/
def bitAt (W : Nat) (c : CursorKind) (bp : BitPtr) (mem : List Nat) (i : Nat) :
    Bool :=
  Nat.testBit (mem.getD ((bp.head + i) / W) 0)
    (cursorAt c ((bp.head + i) % W) W)

/-- Writing one physical bit of an element (spec 4.4 `set`): bitwise-or of
the one-bit mask to set, bitwise-and with the mask's complement in width `W`
to clear. -/
def setBitVal (W n pos : Nat) (v : Bool) : Nat :=
  if v then n ||| 2 ^ pos else n &&& (2 ^ W - 1 - 2 ^ pos)

/-- Writing the bit at logical index `i` of the vector (`self.set(i, v)`),
through the active cursor. -/
def writeBit (W : Nat) (bv : BitVecM) (i : Nat) (v : Bool) : BitVecM :=
  ⟨bv.cursor, bv.bitptr, bv.capacity,
    bv.mem.set ((bv.bitptr.head + i) / W)
      (setBitVal W (bv.mem.getD ((bv.bitptr.head + i) / W) 0)
        (cursorAt bv.cursor ((bv.bitptr.head + i) % W) W) v)⟩

/-- Embeds the element-provisioning step of `BitVec::push` (vec.rs
1046-1050): when the vector is empty or the tail sits at the back edge of an
element, one zero element is pushed onto the underlying `Vec`. -/
def pushPrep (W : Nat) (bv : BitVecM) : BitVecM :=
  if bv.bitptr.len = 0 ∨ BitPtr.tail W bv.bitptr = W
  then doUntoVec W bv (vecPush 0) else bv

/-- Embeds `BitVec::push` (vec.rs 1038-1055): asserts the current length
against `MAX_BITS`, provisions an element if needed, increments the tail,
then writes the new bit at the old length. A panic (from the assertion or
from the tail increment) is modelled as an error result. -/
def push (W M : Nat) (bv : BitVecM) (value : Bool) : Except String BitVecM :=
  if bv.bitptr.len > M then .error ("Capacity overflow: exceeds MAX_BITS")
  else
    match BitPtr.incrTail M (pushPrep W bv).bitptr with
    | .error e => .error e
    | .ok bp =>
        .ok (writeBit W
          ⟨(pushPrep W bv).cursor, bp, (pushPrep W bv).capacity,
            (pushPrep W bv).mem⟩
          bv.bitptr.len value)

/-- Embeds `BitVec::pop` (vec.rs 1083-1090): `None` on an empty vector,
otherwise the bit at `len - 1` together with a tail decrement. -/
def pop (W : Nat) (bv : BitVecM) : Option Bool × BitVecM :=
  if bv.bitptr.len = 0 then (none, bv)
  else
    (some (bitAt W bv.cursor bv.bitptr bv.mem (bv.bitptr.len - 1)),
      ⟨bv.cursor, bv.bitptr.decrTail, bv.capacity, bv.mem⟩)

/-- Embeds `BitVec::from_bitslice` (vec.rs 472-496): the possibly-aliased
source elements are read exclusively through the alias-safe accessor slice
and its `load`, cloned into a fresh allocation at address `newp`, and the
source descriptor is retargeted at the clone with `set_pointer`, leaving
head and length untouched. -/
def fromBitslice (W : Nat) (c : CursorKind) (src : BitPtr) (smem : List Nat)
    (newp : Nat) : BitVecM :=
  ⟨c, src.setPointer newp,
    ((accessSlice W src smem).map BitAccess.load).length,
    (accessSlice W src smem).map BitAccess.load⟩

/-- Embeds `BitVec::change_cursor` (vec.rs 1518-1523): the handle is rebuilt
from the same raw parts under the new cursor type. -/
def changeCursor (bv : BitVecM) (d : CursorKind) : BitVecM :=
  ⟨d, bv.bitptr, bv.capacity, bv.mem⟩

/-- Embeds `BitVec::split_off` (vec.rs 1258-1274), returning the pair
(returned vector, new state of `self`). At `0` the whole allocation moves to
the returned vector and `self` becomes a fresh empty handle; at `len` an
empty vector is returned; in between, the upper part is cloned (the
`to_owned` path is `from_bitslice` of the subslice starting at `a`, placed
at the fresh address `newp`) and `self` is truncated. -/
def splitOff (W : Nat) (newp : Nat) (bv : BitVecM) (a : Nat) :
    Except String (BitVecM × BitVecM) :=
  if a > bv.bitptr.len then .error ("Index out of bounds")
  else if a = 0 then
    .ok (⟨bv.cursor, bv.bitptr, bv.capacity, bv.mem⟩, new bv.cursor)
  else if a = bv.bitptr.len then .ok (new bv.cursor, bv)
  else
    .ok (fromBitslice W bv.cursor
          ⟨bv.bitptr.ptr + (bv.bitptr.head + a) / W, (bv.bitptr.head + a) % W,
            bv.bitptr.len - a⟩
          (bv.mem.drop ((bv.bitptr.head + a) / W)) newp,
      truncate bv a)

end BitVecM

/-- Projects the successful result of a fallible operation; a panic yields
`none`. -/
def toOption {α : Type} (r : Except String α) : Option α :=
  match r with
  | .ok a => some a
  | .error _ => none

/-- States that the capacity invariant holds of a successful result. -/
def capOk (r : Except String BitVecM) : Prop :=
  match toOption r with
  | some bv => BitVecM.CapInv bv
  | none => True

/-- States that the capacity invariant holds of both components of a
successful pair result. -/
def capOk2 (r : Except String (BitVecM × BitVecM)) : Prop :=
  match toOption r with
  | some p => BitVecM.CapInv p.1 ∧ BitVecM.CapInv p.2
  | none => True

/-- Helper: iterated `incr_tail` succeeds and adds `n` to the length when no
intermediate state exceeds the ceiling `M`. -/
theorem incrN_spec (M : Nat) :
    ∀ (n : Nat) (bp : BitPtr), bp.len + n ≤ M →
      BitPtr.incrN M n bp = .ok ⟨bp.ptr, bp.head, bp.len + n⟩ := by
  intro n
  induction n with
  | zero => intro bp h; rfl
  | succ n ih =>
    intro bp h
    have h1 : BitPtr.incrTail M bp = .ok ⟨bp.ptr, bp.head, bp.len + 1⟩ := by
      unfold BitPtr.incrTail
      rw [if_neg (by omega)]
    show (BitPtr.incrTail M bp).bind (BitPtr.incrN M n) = _
    rw [h1]
    show BitPtr.incrN M n ⟨bp.ptr, bp.head, bp.len + 1⟩ = _
    rw [ih ⟨bp.ptr, bp.head, bp.len + 1⟩ (by simp only []; omega)]
    have : bp.len + 1 + n = bp.len + (n + 1) := by omega
    rw [this]

/-- Helper: iterated `decr_tail` removes `n` from the length, restoring the
head, provided an originally empty span had head zero. -/
theorem decrN_spec :
    ∀ (n : Nat) (p h l : Nat), (l = 0 → h = 0) →
      BitPtr.decrN n ⟨p, h, l + n⟩ = ⟨p, h, l⟩ := by
  intro n
  induction n with
  | zero => intro p h l hh; rfl
  | succ n ih =>
    intro p h l hh
    show BitPtr.decrN n (BitPtr.decrTail ⟨p, h, l + (n + 1)⟩) = ⟨p, h, l⟩
    by_cases hc : l + n = 0
    · have hl : l = 0 := by omega
      have hn : n = 0 := by omega
      subst hl hn
      have hh0 : h = 0 := hh rfl
      subst hh0
      rfl
    · have hd : BitPtr.decrTail ⟨p, h, l + (n + 1)⟩ = ⟨p, h, l + n⟩ := by
        unfold BitPtr.decrTail
        simp only []
        rw [if_neg (by omega)]
        have : l + (n + 1) - 1 = l + n := by omega
        rw [this]
      rw [hd]
      exact ih p h l hh

/-- C3: for every descriptor in a valid state and every `n` such that no
intermediate state exceeds `MAX_BITS`, performing `n` one-bit growths
(`incr_tail`, as invoked by push) followed by `n` one-bit shrinks
(`decr_tail`, as invoked by pop) returns the span descriptor to its original
`(head, len)` (indeed to the original descriptor). -/
theorem claim3_incr_decr_roundtrip (W M n : Nat) (bp : BitPtr)
    (hv : BitPtr.Valid W M bp) (hn : bp.len + n ≤ M) :
    (toOption (BitPtr.incrN M n bp)).map (BitPtr.decrN n) = some bp := by
  rw [incrN_spec M n bp hn]
  show some (BitPtr.decrN n ⟨bp.ptr, bp.head, bp.len + n⟩) = some bp
  rw [decrN_spec n bp.ptr bp.head bp.len hv.2.2.2]

/-- Witness for C3 at a concrete valid descriptor. -/
theorem claim3_witness :
    BitPtr.Valid 8 100 ⟨1, 3, 5⟩ ∧ (⟨1, 3, 5⟩ : BitPtr).len + 7 ≤ 100 ∧
      (toOption (BitPtr.incrN 100 7 ⟨1, 3, 5⟩)).map (BitPtr.decrN 7)
        = some ⟨1, 3, 5⟩ :=
  ⟨by decide, by decide,
    claim3_incr_decr_roundtrip 8 100 7 ⟨1, 3, 5⟩ (by decide) (by decide)⟩

/-- C4: `change_cursor` is a pure reinterpretation: it leaves the underlying
memory contents, the `BitPtr` (base pointer, head, len), and the capacity
all unchanged, only installing the new cursor choice on the handle. -/
theorem claim4_change_cursor_pure (bv : BitVecM) (d : CursorKind) :
    (bv.changeCursor d).bitptr = bv.bitptr ∧
    (bv.changeCursor d).capacity = bv.capacity ∧
    (bv.changeCursor d).mem = bv.mem ∧
    (bv.changeCursor d).cursor = d :=
  ⟨rfl, rfl, rfl, rfl⟩

/-- C5: `set_pointer` preserves head and len; consequently the reallocation
path `do_unto_vec` (used by reserve, reserve_exact, shrink_to_fit,
set_elements and push) preserves the descriptor's head and len for every
function applied to the underlying `Vec`, and so does the retargeting step
of `from_bitslice`; only the base pointer and the capacity may change. -/
theorem claim5_set_pointer_preserves_extent (W : Nat) (c : CursorKind)
    (bv : BitVecM) (f : VecM → VecM) (bp : BitPtr) (p newp : Nat)
    (smem : List Nat) :
    (bp.setPointer p).head = bp.head ∧ (bp.setPointer p).len = bp.len ∧
    (BitVecM.doUntoVec W bv f).bitptr.head = bv.bitptr.head ∧
    (BitVecM.doUntoVec W bv f).bitptr.len = bv.bitptr.len ∧
    (BitVecM.fromBitslice W c bp smem newp).bitptr.head = bp.head ∧
    (BitVecM.fromBitslice W c bp smem newp).bitptr.len = bp.len :=
  ⟨rfl, rfl, rfl, rfl, rfl, rfl⟩

/-- C7: `from_bitslice` reads every covered element through the alias-safe
accessor slice and its `load` (as its definition shows), and produces a
vector with the same head and len as the source whose element contents equal
the source's covered elements at the time of the copy. -/
theorem claim7_from_bitslice_alias_safe_copy (W : Nat) (c : CursorKind)
    (src : BitPtr) (smem : List Nat) (newp : Nat) :
    (BitVecM.fromBitslice W c src smem newp).bitptr.head = src.head ∧
    (BitVecM.fromBitslice W c src smem newp).bitptr.len = src.len ∧
    (BitVecM.fromBitslice W c src smem newp).mem
      = smem.take (BitPtr.elements W src) := by
  refine ⟨rfl, rfl, ?_⟩
  show (accessSlice W src smem).map BitAccess.load = _
  unfold accessSlice
  rw [List.map_map]
  have hid : (BitAccess.load ∘ BitAccess.mk) = id := rfl
  rw [hid, List.map_id]

/-- C1: requesting `len = MAX_BITS + 1` fails loudly and produces no
successor state (so the previously-valid descriptor is untouched and no
silently-truncated or wrapped-around result is ever returned), through every
guarded path: the validated constructor, `set_len`, `reserve`, and a one-bit
growth via `push` on a valid vector already at `MAX_BITS`. -/
theorem claim1_overflow_rejected (W M p h a : Nat) (x : Bool)
    (bv bvr bvp : BitVecM)
    (hr : bvr.bitptr.len + a = M + 1)
    (hp : bvp.bitptr.len = M) :
    toOption (BitPtr.new W M p h (M + 1)) = none ∧
    toOption (BitVecM.setLen W M bv (M + 1)) = none ∧
    toOption (BitVecM.reserve W M bvr a) = none ∧
    toOption (BitVecM.push W M bvp x) = none := by
  refine ⟨?_, ?_, ?_, ?_⟩
  · unfold BitPtr.new
    split
    · rfl
    split
    · rfl
    rw [if_pos (Nat.lt_succ_self M)]
    rfl
  · unfold BitVecM.setLen
    rw [if_pos (Nat.lt_succ_self M)]
    rfl
  · unfold BitVecM.reserve
    rw [if_pos (by omega)]
    rfl
  · have h1 : (BitVecM.pushPrep W bvp).bitptr.len = M := by
      unfold BitVecM.pushPrep
      split
      · exact hp
      · exact hp
    unfold BitVecM.push
    rw [if_neg (by omega)]
    have h2 : BitPtr.incrTail M (BitVecM.pushPrep W bvp).bitptr
        = .error ("capacity overflow") := by
      unfold BitPtr.incrTail
      rw [if_pos (by omega)]
    rw [h2]
    rfl

/-- Witness for C1 at concrete inputs: width 8, ceiling 10, a vector of
length 8 asked to reserve 3 more bits, and a valid vector already at the
ceiling being pushed. -/
theorem claim1_witness :
    (⟨CursorKind.bigEndian, ⟨1, 0, 8⟩, 2, [0, 0]⟩ : BitVecM).bitptr.len + 3
        = 10 + 1 ∧
    (⟨CursorKind.bigEndian, ⟨1, 2, 10⟩, 2, [0, 0]⟩ : BitVecM).bitptr.len = 10 ∧
    (toOption (BitPtr.new 8 10 1 2 (10 + 1)) = none ∧
      toOption (BitVecM.setLen 8 10
        ⟨CursorKind.bigEndian, ⟨1, 0, 0⟩, 0, []⟩ (10 + 1)) = none ∧
      toOption (BitVecM.reserve 8 10
        ⟨CursorKind.bigEndian, ⟨1, 0, 8⟩, 2, [0, 0]⟩ 3) = none ∧
      toOption (BitVecM.push 8 10
        ⟨CursorKind.bigEndian, ⟨1, 2, 10⟩, 2, [0, 0]⟩ true) = none) :=
  ⟨by decide, by decide,
    claim1_overflow_rejected 8 10 1 2 3 true
      ⟨CursorKind.bigEndian, ⟨1, 0, 0⟩, 0, []⟩
      ⟨CursorKind.bigEndian, ⟨1, 0, 8⟩, 2, [0, 0]⟩
      ⟨CursorKind.bigEndian, ⟨1, 2, 10⟩, 2, [0, 0]⟩
      (by decide) (by decide)⟩

/-- C6: any state with bit length zero has head zero. The validated
constructor called with `len = 0` yields head `0` regardless of the
requested head; `clear` yields a descriptor with head `0`; popping a
one-bit vector empties it with head `0`; truncating a non-empty vector to
length zero yields head `0`. -/
theorem claim6_empty_normalizes_head (W M p h : Nat) (bv bv1 bvt : BitVecM)
    (hp : p ≠ 0) (hh : h < W) (h1 : bv1.bitptr.len = 1)
    (ht : 0 < bvt.bitptr.len) :
    BitPtr.new W M p h 0 = .ok ⟨p, 0, 0⟩ ∧
    toOption (BitVecM.clear W M bv)
      = some ⟨bv.cursor, ⟨bv.bitptr.ptr, 0, 0⟩, bv.capacity, bv.mem⟩ ∧
    (BitVecM.pop W bv1).2.bitptr.head = 0 ∧
    (BitVecM.truncate bvt 0).bitptr.head = 0 := by
  refine ⟨?_, ?_, ?_, ?_⟩
  · unfold BitPtr.new
    rw [if_neg hp, if_neg (by omega), if_neg (by omega)]
    rfl
  · unfold BitVecM.clear BitVecM.setLen
    rw [if_neg (by omega), if_neg (by omega)]
    rfl
  · unfold BitVecM.pop
    rw [if_neg (by omega)]
    show (BitPtr.decrTail bv1.bitptr).head = 0
    unfold BitPtr.decrTail
    rw [if_pos (by omega)]
  · unfold BitVecM.truncate
    rw [if_pos (by omega)]
    rfl

/-- Witness for C6 at concrete inputs, including vectors whose head is not
zero before being emptied. -/
theorem claim6_witness :
    (1 : Nat) ≠ 0 ∧ (3 : Nat) < 8 ∧
    (⟨CursorKind.bigEndian, ⟨1, 3, 1⟩, 1, [0]⟩ : BitVecM).bitptr.len = 1 ∧
    0 < (⟨CursorKind.bigEndian, ⟨1, 3, 5⟩, 1, [0]⟩ : BitVecM).bitptr.len ∧
    (BitPtr.new 8 10 1 3 0 = .ok ⟨1, 0, 0⟩ ∧
      toOption (BitVecM.clear 8 10 ⟨CursorKind.bigEndian, ⟨1, 2, 4⟩, 1, [0]⟩)
        = some ⟨CursorKind.bigEndian, ⟨1, 0, 0⟩, 1, [0]⟩ ∧
      (BitVecM.pop 8 ⟨CursorKind.bigEndian, ⟨1, 3, 1⟩, 1, [0]⟩).2.bitptr.head
        = 0 ∧
      (BitVecM.truncate ⟨CursorKind.bigEndian, ⟨1, 3, 5⟩, 1, [0]⟩ 0).bitptr.head
        = 0) :=
  ⟨by decide, by decide, by decide, by decide,
    claim6_empty_normalizes_head 8 10 1 3
      ⟨CursorKind.bigEndian, ⟨1, 2, 4⟩, 1, [0]⟩
      ⟨CursorKind.bigEndian, ⟨1, 3, 1⟩, 1, [0]⟩
      ⟨CursorKind.bigEndian, ⟨1, 3, 5⟩, 1, [0]⟩
      (by decide) (by decide) (by decide) (by decide)⟩

/-- Counterexample for C8 as stated: popping the non-empty vector with
descriptor `(head 3, len 1)` does not leave the head unchanged — emptying
the vector normalizes its head to `0` (vec.rs 445-447, spec 3), so the
claim that a non-empty pop leaves the head unchanged is false. -/
theorem claim8_counterexample :
    ¬ ((BitVecM.pop 8 ⟨CursorKind.bigEndian, ⟨1, 3, 1⟩, 1, [0]⟩).2.bitptr.head
        = (⟨CursorKind.bigEndian, ⟨1, 3, 1⟩, 1, [0]⟩ : BitVecM).bitptr.head) := by
  decide

/-- C8 amended: `pop()` returns `None` and leaves the vector entirely
unchanged when the vector is empty; when the vector is non-empty it returns
`Some` of the bit at index `len - 1`, decreases the length by exactly one,
and leaves every remaining bit (the memory contents), the capacity and the
base pointer unchanged; the head is unchanged unless the pop empties the
vector, in which case the head normalizes to `0`. -/
theorem claim8_pop_behavior (W : Nat) (bvE bvN : BitVecM)
    (hE : bvE.bitptr.len = 0) (hN : 0 < bvN.bitptr.len) :
    BitVecM.pop W bvE = (none, bvE) ∧
    (BitVecM.pop W bvN).1
      = some (BitVecM.bitAt W bvN.cursor bvN.bitptr bvN.mem
          (bvN.bitptr.len - 1)) ∧
    (BitVecM.pop W bvN).2.bitptr.len = bvN.bitptr.len - 1 ∧
    (BitVecM.pop W bvN).2.bitptr.ptr = bvN.bitptr.ptr ∧
    (BitVecM.pop W bvN).2.bitptr.head
      = (if bvN.bitptr.len = 1 then 0 else bvN.bitptr.head) ∧
    (BitVecM.pop W bvN).2.mem = bvN.mem ∧
    (BitVecM.pop W bvN).2.capacity = bvN.capacity ∧
    (BitVecM.pop W bvN).2.cursor = bvN.cursor := by
  have hpop : BitVecM.pop W bvN
      = (some (BitVecM.bitAt W bvN.cursor bvN.bitptr bvN.mem
          (bvN.bitptr.len - 1)),
        ⟨bvN.cursor, bvN.bitptr.decrTail, bvN.capacity, bvN.mem⟩) := by
    unfold BitVecM.pop
    rw [if_neg (by omega)]
  refine ⟨?_, ?_, ?_, ?_, ?_, ?_, ?_, ?_⟩
  · unfold BitVecM.pop
    rw [if_pos hE]
  · rw [hpop]
  · rw [hpop]
    show bvN.bitptr.decrTail.len = bvN.bitptr.len - 1
    rfl
  · rw [hpop]
    rfl
  · rw [hpop]
    show (if bvN.bitptr.len - 1 = 0 then 0 else bvN.bitptr.head) = _
    by_cases hc : bvN.bitptr.len = 1
    · rw [if_pos (by omega), if_pos hc]
    · rw [if_neg (by omega), if_neg hc]
  · rw [hpop]
  · rw [hpop]
  · rw [hpop]

/-- Witness for C8 at concrete inputs: the empty vector and a three-bit
vector with a non-zero head over memory `[170]`. -/
theorem claim8_witness :
    (⟨CursorKind.bigEndian, ⟨1, 0, 0⟩, 0, []⟩ : BitVecM).bitptr.len = 0 ∧
    0 < (⟨CursorKind.bigEndian, ⟨1, 2, 3⟩, 1, [170]⟩ : BitVecM).bitptr.len ∧
    (BitVecM.pop 8 ⟨CursorKind.bigEndian, ⟨1, 0, 0⟩, 0, []⟩
        = (none, ⟨CursorKind.bigEndian, ⟨1, 0, 0⟩, 0, []⟩) ∧
      (BitVecM.pop 8 ⟨CursorKind.bigEndian, ⟨1, 2, 3⟩, 1, [170]⟩).1
        = some (BitVecM.bitAt 8 CursorKind.bigEndian ⟨1, 2, 3⟩ [170] (3 - 1)) ∧
      (BitVecM.pop 8 ⟨CursorKind.bigEndian, ⟨1, 2, 3⟩, 1, [170]⟩).2.bitptr.len
        = 3 - 1 ∧
      (BitVecM.pop 8 ⟨CursorKind.bigEndian, ⟨1, 2, 3⟩, 1, [170]⟩).2.bitptr.ptr
        = 1 ∧
      (BitVecM.pop 8 ⟨CursorKind.bigEndian, ⟨1, 2, 3⟩, 1, [170]⟩).2.bitptr.head
        = (if (3 : Nat) = 1 then 0 else 2) ∧
      (BitVecM.pop 8 ⟨CursorKind.bigEndian, ⟨1, 2, 3⟩, 1, [170]⟩).2.mem
        = [170] ∧
      (BitVecM.pop 8 ⟨CursorKind.bigEndian, ⟨1, 2, 3⟩, 1, [170]⟩).2.capacity
        = 1 ∧
      (BitVecM.pop 8 ⟨CursorKind.bigEndian, ⟨1, 2, 3⟩, 1, [170]⟩).2.cursor
        = CursorKind.bigEndian) :=
  ⟨by decide, by decide,
    claim8_pop_behavior 8
      ⟨CursorKind.bigEndian, ⟨1, 0, 0⟩, 0, []⟩
      ⟨CursorKind.bigEndian, ⟨1, 2, 3⟩, 1, [170]⟩
      (by decide) (by decide)⟩

/-- Counterexample for C10 as stated: truncating the vector with descriptor
`(head 3, len 5)` down to length `0 < len` does not leave the head
unchanged — `set_len(0)` normalizes the head to `0` (spec 3), so the claim
that truncation to any `n < len` leaves the head unchanged is false at
`n = 0`. -/
theorem claim10_counterexample :
    ¬ ((BitVecM.truncate ⟨CursorKind.bigEndian, ⟨1, 3, 5⟩, 1, [0]⟩ 0).bitptr.head
        = (⟨CursorKind.bigEndian, ⟨1, 3, 5⟩, 1, [0]⟩ : BitVecM).bitptr.head) := by
  decide

/-- C10 amended: `truncate(n)` leaves the vector completely unchanged
(length, head, capacity and memory contents) when `n >= len`; when `n < len`
it sets the bit length to exactly `n` while leaving the base pointer, the
capacity and the contents of the backing memory unchanged, and leaves the
head unchanged as well unless `n = 0`, in which case the emptied vector's
head normalizes to `0`. -/
theorem claim10_truncate_behavior (bvA bvB : BitVecM) (a b : Nat)
    (hA : bvA.bitptr.len ≤ a) (hB : b < bvB.bitptr.len) :
    BitVecM.truncate bvA a = bvA ∧
    (BitVecM.truncate bvB b).bitptr.len = b ∧
    (BitVecM.truncate bvB b).bitptr.ptr = bvB.bitptr.ptr ∧
    (BitVecM.truncate bvB b).bitptr.head
      = (if b = 0 then 0 else bvB.bitptr.head) ∧
    (BitVecM.truncate bvB b).mem = bvB.mem ∧
    (BitVecM.truncate bvB b).capacity = bvB.capacity ∧
    (BitVecM.truncate bvB b).cursor = bvB.cursor := by
  have htr : BitVecM.truncate bvB b
      = ⟨bvB.cursor, bvB.bitptr.setLen b, bvB.capacity, bvB.mem⟩ := by
    unfold BitVecM.truncate
    rw [if_pos hB]
  refine ⟨?_, ?_, ?_, ?_, ?_, ?_, ?_⟩
  · unfold BitVecM.truncate
    rw [if_neg (by omega)]
  · rw [htr]
    rfl
  · rw [htr]
    rfl
  · rw [htr]
    rfl
  · rw [htr]
  · rw [htr]
  · rw [htr]

/-- Witness for C10 at concrete inputs: an out-of-range truncation of a
two-bit vector and an in-range truncation of a six-bit vector with non-zero
head. -/
theorem claim10_witness :
    (⟨CursorKind.bigEndian, ⟨1, 0, 2⟩, 1, [0]⟩ : BitVecM).bitptr.len ≤ 5 ∧
    4 < (⟨CursorKind.bigEndian, ⟨1, 2, 6⟩, 1, [0]⟩ : BitVecM).bitptr.len ∧
    (BitVecM.truncate ⟨CursorKind.bigEndian, ⟨1, 0, 2⟩, 1, [0]⟩ 5
        = ⟨CursorKind.bigEndian, ⟨1, 0, 2⟩, 1, [0]⟩ ∧
      (BitVecM.truncate ⟨CursorKind.bigEndian, ⟨1, 2, 6⟩, 1, [0]⟩ 4).bitptr.len
        = 4 ∧
      (BitVecM.truncate ⟨CursorKind.bigEndian, ⟨1, 2, 6⟩, 1, [0]⟩ 4).bitptr.ptr
        = 1 ∧
      (BitVecM.truncate ⟨CursorKind.bigEndian, ⟨1, 2, 6⟩, 1, [0]⟩ 4).bitptr.head
        = (if (4 : Nat) = 0 then 0 else 2) ∧
      (BitVecM.truncate ⟨CursorKind.bigEndian, ⟨1, 2, 6⟩, 1, [0]⟩ 4).mem
        = [0] ∧
      (BitVecM.truncate ⟨CursorKind.bigEndian, ⟨1, 2, 6⟩, 1, [0]⟩ 4).capacity
        = 1 ∧
      (BitVecM.truncate ⟨CursorKind.bigEndian, ⟨1, 2, 6⟩, 1, [0]⟩ 4).cursor
        = CursorKind.bigEndian) :=
  ⟨by decide, by decide,
    claim10_truncate_behavior
      ⟨CursorKind.bigEndian, ⟨1, 0, 2⟩, 1, [0]⟩
      ⟨CursorKind.bigEndian, ⟨1, 2, 6⟩, 1, [0]⟩
      5 4 (by decide) (by decide)⟩

/-- C9: for every vector with at least one bit, `split_off(0)` transfers
the entire allocation: the returned vector carries the original `BitPtr`,
the original capacity and the original memory, while `self` is overwritten
with a freshly-constructed empty handle whose capacity is zero. -/
theorem claim9_split_off_zero (W newp : Nat) (bv : BitVecM)
    (hlen : 1 ≤ bv.bitptr.len) :
    BitVecM.splitOff W newp bv 0 = .ok (bv, BitVecM.new bv.cursor) := by
  unfold BitVecM.splitOff
  rw [if_neg (by omega), if_pos rfl]

/-- Witness for C9 at a concrete three-bit vector. -/
theorem claim9_witness :
    1 ≤ (⟨CursorKind.bigEndian, ⟨1, 0, 3⟩, 1, [5]⟩ : BitVecM).bitptr.len ∧
    BitVecM.splitOff 8 9 ⟨CursorKind.bigEndian, ⟨1, 0, 3⟩, 1, [5]⟩ 0
      = .ok (⟨CursorKind.bigEndian, ⟨1, 0, 3⟩, 1, [5]⟩,
          BitVecM.new CursorKind.bigEndian) :=
  ⟨by decide,
    claim9_split_off_zero 8 9 ⟨CursorKind.bigEndian, ⟨1, 0, 3⟩, 1, [5]⟩
      (by decide)⟩

/-- Helper: writing one bit preserves the capacity invariant, because
`List.set` preserves the allocation length. -/
theorem writeBit_capInv (W : Nat) (bv : BitVecM) (i : Nat) (v : Bool)
    (hc : bv.CapInv) : (BitVecM.writeBit W bv i v).CapInv := by
  show bv.capacity = (bv.mem.set ((bv.bitptr.head + i) / W)
    (BitVecM.setBitVal W (bv.mem.getD ((bv.bitptr.head + i) / W) 0)
      (cursorAt bv.cursor ((bv.bitptr.head + i) % W) W) v)).length
  rw [List.length_set]
  exact hc

/-- C2: the owning vector is exactly a `(BitPtr, capacity)` pair with no
other per-instance handle state: `from_raw_parts(bv.bitptr, bv.capacity)`
over the same backing memory is the vector itself, and every embedded
public operation preserves the invariant that the stored capacity field
equals the element capacity of the backing allocation (zero when
unallocated), also on the states produced by fallible operations. -/
theorem claim2_doublet_and_capacity (W M n newp : Nat) (c d : CursorKind)
    (bv : BitVecM) (f : VecM → VecM) (x : Bool) (bp : BitPtr)
    (smem : List Nat) (hc : bv.CapInv) :
    BitVecM.fromRawParts bv.cursor bv.bitptr bv.capacity bv.mem = bv ∧
    (BitVecM.new c).CapInv ∧
    (BitVecM.doUntoVec W bv f).CapInv ∧
    capOk (BitVecM.setLen W M bv n) ∧
    capOk (BitVecM.clear W M bv) ∧
    (BitVecM.truncate bv n).CapInv ∧
    capOk (BitVecM.reserve W M bv n) ∧
    (BitVecM.shrinkToFit W bv).CapInv ∧
    (BitVecM.setElements W bv n).CapInv ∧
    capOk (BitVecM.push W M bv x) ∧
    (BitVecM.pop W bv).2.CapInv ∧
    (BitVecM.fromBitslice W c bp smem newp).CapInv ∧
    (bv.changeCursor d).CapInv ∧
    capOk2 (BitVecM.splitOff W newp bv n) := by
  have htrunc : ∀ m : Nat, (BitVecM.truncate bv m).CapInv := by
    intro m
    unfold BitVecM.truncate
    split
    · exact hc
    · exact hc
  refine ⟨rfl, rfl, rfl, ?_, ?_, htrunc n, ?_, rfl, rfl, ?_, ?_, rfl, hc, ?_⟩
  · unfold BitVecM.setLen
    split
    · exact trivial
    split
    · exact trivial
    · exact hc
  · unfold BitVecM.clear BitVecM.setLen
    split
    · exact trivial
    split
    · exact trivial
    · exact hc
  · unfold BitVecM.reserve
    split
    · exact trivial
    · exact rfl
  · have hprep : (BitVecM.pushPrep W bv).CapInv := by
      unfold BitVecM.pushPrep
      split
      · exact rfl
      · exact hc
    unfold BitVecM.push
    split
    · exact trivial
    rcases hinc : BitPtr.incrTail M (BitVecM.pushPrep W bv).bitptr with e | bp2
    · exact trivial
    · exact writeBit_capInv W
        ⟨(BitVecM.pushPrep W bv).cursor, bp2, (BitVecM.pushPrep W bv).capacity,
          (BitVecM.pushPrep W bv).mem⟩
        bv.bitptr.len x hprep
  · unfold BitVecM.pop
    split
    · exact hc
    · exact hc
  · unfold BitVecM.splitOff
    split
    · exact trivial
    split
    · exact ⟨hc, rfl⟩
    split
    · exact ⟨rfl, hc⟩
    · exact ⟨rfl, htrunc n⟩

/-- Witness for C2 at a concrete vector satisfying the capacity invariant,
with the underlying-vector function instantiated to `vecShrink`. -/
theorem claim2_witness :
    (⟨CursorKind.bigEndian, ⟨1, 0, 3⟩, 1, [5]⟩ : BitVecM).CapInv ∧
    (BitVecM.fromRawParts CursorKind.bigEndian ⟨1, 0, 3⟩ 1 [5]
        = ⟨CursorKind.bigEndian, ⟨1, 0, 3⟩, 1, [5]⟩ ∧
      (BitVecM.new CursorKind.littleEndian).CapInv ∧
      (BitVecM.doUntoVec 8 ⟨CursorKind.bigEndian, ⟨1, 0, 3⟩, 1, [5]⟩
          vecShrink).CapInv ∧
      capOk (BitVecM.setLen 8 10 ⟨CursorKind.bigEndian, ⟨1, 0, 3⟩, 1, [5]⟩ 1) ∧
      capOk (BitVecM.clear 8 10 ⟨CursorKind.bigEndian, ⟨1, 0, 3⟩, 1, [5]⟩) ∧
      (BitVecM.truncate ⟨CursorKind.bigEndian, ⟨1, 0, 3⟩, 1, [5]⟩ 1).CapInv ∧
      capOk (BitVecM.reserve 8 10
        ⟨CursorKind.bigEndian, ⟨1, 0, 3⟩, 1, [5]⟩ 1) ∧
      (BitVecM.shrinkToFit 8 ⟨CursorKind.bigEndian, ⟨1, 0, 3⟩, 1, [5]⟩).CapInv ∧
      (BitVecM.setElements 8
        ⟨CursorKind.bigEndian, ⟨1, 0, 3⟩, 1, [5]⟩ 1).CapInv ∧
      capOk (BitVecM.push 8 10
        ⟨CursorKind.bigEndian, ⟨1, 0, 3⟩, 1, [5]⟩ true) ∧
      (BitVecM.pop 8 ⟨CursorKind.bigEndian, ⟨1, 0, 3⟩, 1, [5]⟩).2.CapInv ∧
      (BitVecM.fromBitslice 8 CursorKind.littleEndian ⟨1, 2, 4⟩ [7] 9).CapInv ∧
      ((⟨CursorKind.bigEndian, ⟨1, 0, 3⟩, 1, [5]⟩ : BitVecM).changeCursor
          CursorKind.littleEndian).CapInv ∧
      capOk2 (BitVecM.splitOff 8 9
        ⟨CursorKind.bigEndian, ⟨1, 0, 3⟩, 1, [5]⟩ 1)) :=
  ⟨by decide,
    claim2_doublet_and_capacity 8 10 1 9 CursorKind.littleEndian
      CursorKind.littleEndian ⟨CursorKind.bigEndian, ⟨1, 0, 3⟩, 1, [5]⟩
      vecShrink true ⟨1, 2, 4⟩ [7] (by decide)⟩
